import Mathlib

/-!
# core_wars: the list genome's structural mutators and the Redcode warrior evaluator

A shallow embedding of

* `libs/galib/galib-2.4.2/ga/GAListGenome.h`: the inlined structural mutators
  `destroy`, `swap`, `remove` and the two `insert` overloads of `GAListGenome<T>`;
* `src/main.cpp`: `generateRandomInstruction`, `generateRandomWarrior` and
  `evaluateFitness`.

Conventions of the embedding.

* A C++ object is a Lean value; a member function that mutates `*this` takes the old
  value and returns the new one together with what the call produced.
* A call that may throw produces an `Except`; the object state reached when the
  exception leaves the call is still returned, next to the `Except`.
* `rand()` is a stream of draws `Nat → Nat` with an explicit read position.
* `float` is IEEE-754 binary32 with round-to-nearest-even, embedded in `ℚ`
  (see `roundF32`).
-/

namespace CoreWars

/-! ## Part 1: `GAListGenome.h` -/

namespace GAListBASE

/-- Modelled from the spec: the insert locations of `GAListBASE` (declared in `GAList.h`,
which is not among the sources) are the closed enumeration
HEAD, TAIL, BEFORE-cursor, AFTER-cursor. -/
inductive Location where
  | HEAD
  | TAIL
  | BEFORE
  | AFTER
  deriving DecidableEq, Repr

end GAListBASE

/-- The operations of the base class `GAList<T>` that `GAListGenome<T>` calls. `GAList.h` is
not among the sources, so the operations are parameters of the development: `L` is the state
of a list, `T` the element type, `P` what `remove` hands back (a `T *`), `ε` what a failing
operation throws. Every operation yields what the call produced and the list state it leaves
behind; `insertList` also yields the state of the list that was passed in. -/
structure GAList (L T P ε : Type) where
  destroy : L → Except ε Int × L
  swap : Nat → Nat → L → Except ε Int × L
  remove : L → Except ε P × L
  insertList : L → GAListBASE.Location → L → Except ε Int × L × L
  insertValue : T → GAListBASE.Location → L → Except ε Int × L

/-- Modelled from the spec: the members of the base class `GAGenome` (declared in
`GAGenome.h`, which is not among the sources): the cached fitness score, the evaluated flag,
the evaluator reference and the user data. -/
structure GAGenome (S E U : Type) where
  _score : S
  _evaluated : Bool
  eval : E
  ud : U

/-- The class `GAListGenome<T> : public GAList<T>, public GAGenome`: one list and one genome
base. -/
structure GAListGenome (L S E U : Type) where
  list : L
  genome : GAGenome S E U

namespace GAListGenome

variable {L T P ε S E U : Type}

/-- The statement `_evaluated = gaFalse;` that opens every mutator. -/
def clearEvaluated (g : GAListGenome L S E U) : GAListGenome L S E U :=
  { g with genome := { g.genome with _evaluated := false } }

/-- Source: `int destroy() { _evaluated = gaFalse; return GAList<T>::destroy(); }` -/
def destroy (base : GAList L T P ε) (g : GAListGenome L S E U) :
    Except ε Int × GAListGenome L S E U :=
  let g1 := clearEvaluated g
  let r := base.destroy g1.list
  (r.1, { g1 with list := r.2 })

/-- Source: `int swap(unsigned int i, unsigned int j)
{ _evaluated = gaFalse; return GAList<T>::swap(i,j); }` -/
def swap (base : GAList L T P ε) (i j : Nat) (g : GAListGenome L S E U) :
    Except ε Int × GAListGenome L S E U :=
  let g1 := clearEvaluated g
  let r := base.swap i j g1.list
  (r.1, { g1 with list := r.2 })

/-- Source: `T * remove() { _evaluated = gaFalse; return GAList<T>::remove(); }` -/
def remove (base : GAList L T P ε) (g : GAListGenome L S E U) :
    Except ε P × GAListGenome L S E U :=
  let g1 := clearEvaluated g
  let r := base.remove g1.list
  (r.1, { g1 with list := r.2 })

/-- Source: `int insert(GAList<T> * t, GAListBASE::Location where=GAListBASE::AFTER)
{ _evaluated = gaFalse; return GAList<T>::insert(t, where); }`.
The third component of the result is the state of the list `t` after the call. -/
def insertList (base : GAList L T P ε) (t : L) (wh : GAListBASE.Location)
    (g : GAListGenome L S E U) : Except ε Int × GAListGenome L S E U × L :=
  let g1 := clearEvaluated g
  let r := base.insertList t wh g1.list
  (r.1, { g1 with list := r.2.1 }, r.2.2)

/-- Source: `int insert(const T & t, GAListBASE::Location where=GAListBASE::AFTER)
{ _evaluated = gaFalse; return GAList<T>::insert(t, where); }` -/
def insertValue (base : GAList L T P ε) (t : T) (wh : GAListBASE.Location)
    (g : GAListGenome L S E U) : Except ε Int × GAListGenome L S E U :=
  let g1 := clearEvaluated g
  let r := base.insertValue t wh g1.list
  (r.1, { g1 with list := r.2 })

end GAListGenome

/-- The genome fields other than the evaluated flag: score, evaluator reference, user data. -/
def GAGenome.otherFields {S E U : Type} (g : GAGenome S E U) : S × E × U :=
  (g._score, g.eval, g.ud)

/-! ## Part 2: `src/main.cpp` -/

/-! ### The random source -/

/-- The C library generator behind `rand()`: the stream of values it will return (each a
non-negative `int`, hence a `Nat`) and the number of values returned so far. -/
structure Rand where
  draws : Nat → Nat
  pos : Nat

/-- One call of `rand()`: the value drawn and the generator after the call. -/
def rand (r : Rand) : Nat × Rand :=
  (r.draws r.pos, { r with pos := r.pos + 1 })

/-! ### Constants -/

/-- Source: `const int CORESIZE = 8000;` -/
def CORESIZE : Nat := 8000

/-- Source: `const int MAXLENGTH = 100;` -/
def MAXLENGTH : Nat := 100

/-- Source: `const std::vector<std::string> OPCODES`. -/
def OPCODES : List String :=
  ["DAT", "MOV", "ADD", "SUB", "MUL", "DIV", "MOD",
   "JMP", "JMZ", "JMN", "DJN", "SPL", "SLT", "CMP",
   "SEQ", "SNE", "NOP", "LDP", "STP"]

/-- Source: `const std::vector<std::string> MODIFIERS`. -/
def MODIFIERS : List String :=
  [".A", ".B", ".AB", ".BA", ".F", ".X", ".I"]

/-- Source: `const std::vector<std::string> ADDRESSING_MODES`; the last two entries are the
opening and the closing brace. -/
def ADDRESSING_MODES : List String :=
  ["#", "$", "@", "<", ">", "*", "\x7b", "\x7d"]

/-! ### `generateRandomInstruction` and `generateRandomWarrior` -/

/-- Source: `std::string generateRandomInstruction()`. `v[i]` on a `std::vector` is
undefined outside the vector; the embedding reads the vector with `v[i]?` and yields `none`
in that case. The draws are taken in the order of the statements of the source: opcode,
modifier coin, modifier (only after an odd coin), operand A, operand B, mode A, mode B. -/
def generateRandomInstruction (r0 : Rand) : Option (String × Rand) := do
  let instruction := ""
  let (d, r) := rand r0
  let opcode ← OPCODES[d % OPCODES.length]?
  let instruction := instruction ++ opcode
  let (d, r) := rand r
  let (instruction, r) ←
    if d % 2 ≠ 0 then do
      let (d, r) := rand r
      let modifier ← MODIFIERS[d % MODIFIERS.length]?
      pure (instruction ++ modifier, r)
    else pure (instruction, r)
  let (d, r) := rand r
  let operandA := d % CORESIZE
  let (d, r) := rand r
  let operandB := d % CORESIZE
  let (d, r) := rand r
  let modeA ← ADDRESSING_MODES[d % ADDRESSING_MODES.length]?
  let instruction := instruction ++ " " ++ modeA ++ toString operandA
  let (d, r) := rand r
  let modeB ← ADDRESSING_MODES[d % ADDRESSING_MODES.length]?
  let instruction := instruction ++ ", " ++ modeB ++ toString operandB
  pure (instruction, r)

/-- How a call of `generateRandomWarrior` can fail: the `std::invalid_argument` it throws
itself, or an out-of-range vector access inside `generateRandomInstruction`. -/
inductive Failure where
  | invalid_argument (what : String)
  | undefined_index
  deriving DecidableEq, Repr

/-- The loop `for (int i = 0; i < length; ++i) warrior << generateRandomInstruction() << "\n";`
with `n` iterations left. -/
def warriorLoop : Nat → String → Rand → Option (String × Rand)
  | 0, warrior, r => some (warrior, r)
  | n + 1, warrior, r =>
    match generateRandomInstruction r with
    | none => none
    | some (instruction, r1) => warriorLoop n (warrior ++ instruction ++ "\n") r1

/-- Source: `std::string generateRandomWarrior(int length)`. The result carries the generator
as the call leaves it, also when the call throws. -/
def generateRandomWarrior (length : Int) (r : Rand) : Except Failure String × Rand :=
  if length ≤ 0 then
    (.error (.invalid_argument "Warrior length must be greater than 0."), r)
  else
    let warrior := ";redcode\n" ++ ";name RandomWarrior\n" ++ ";author GA\n"
    match warriorLoop length.toNat warrior r with
    | none => (.error .undefined_index, r)
    | some (text, r1) => (.ok text, r1)

/-! ### binary32 arithmetic -/

/-- The binade of a rational: `⌊log₂ |q|⌋` (and `0` at `q = 0`). -/
def binade (q : ℚ) : ℤ := Int.log 2 |q|

/-- The spacing of binary32 numbers around `q`: 24 significant bits, with the exponent held
at `-126` in the subnormal range. -/
def ulp (q : ℚ) : ℚ := (2 : ℚ) ^ (max (binade q) (-126) - 23)

/-- Rounding to the nearest integer, a tie going to the even neighbour. -/
def roundHalfEven (r : ℚ) : ℤ :=
  if r - ⌊r⌋ < 1 / 2 then ⌊r⌋
  else if 1 / 2 < r - ⌊r⌋ then ⌊r⌋ + 1
  else if ⌊r⌋ % 2 = 0 then ⌊r⌋
  else ⌊r⌋ + 1

/-- The binary32 number nearest to `q` (IEEE-754 round-to-nearest, ties-to-even, the
default rounding of `float` arithmetic and of the `int`-to-`float` conversion). Overflow to
infinity is outside the embedding: every value rounded below is built from three `int`
counters and is smaller than `2 ^ 33` in magnitude. -/
def roundF32 (q : ℚ) : ℚ := roundHalfEven (q / ulp q) * ulp q

namespace F32

/-- The conversion `int → float`. -/
def ofInt (n : Int) : ℚ := roundF32 n

/-- The `float` sum. -/
def add (a b : ℚ) : ℚ := roundF32 (a + b)

/-- The `float` product. -/
def mul (a b : ℚ) : ℚ := roundF32 (a * b)

end F32

/-! ### `evaluateFitness` -/

/-- Source: `haystack.find(needle)` of `std::string`: the position of the first occurrence of
`needle` in `haystack`, and `none` for `std::string::npos`. -/
def find (haystack needle : List Char) : Option Nat :=
  go haystack 0
where
  /-- The search from position `pos` on, `rest` being the haystack from there. -/
  go (rest : List Char) (pos : Nat) : Option Nat :=
    if needle.isPrefixOf rest then some pos
    else
      match rest with
      | [] => none
      | _ :: cs => go cs (pos + 1)

/-- Source: `std::getline(stream, line)` on the unread characters of a stream. At the end of
the stream nothing is extracted and the call fails (`none`); otherwise the characters up to
the first newline (or to the end of the stream) form the line, and the newline is consumed. -/
def getline : List Char → Option (List Char × List Char)
  | [] => none
  | c :: cs =>
    some ((c :: cs).takeWhile (fun x => x ≠ '\n'), ((c :: cs).dropWhile (fun x => x ≠ '\n')).tail)

/-- The locals `int wins = 0, losses = 0, ties = 0;`. An `int` overflows only past
`2 ^ 31 - 1` increments, that is on a results text of `2 ^ 31` lines or more; the embedding
does not bound the counters, and every text named in a theorem below is far shorter. -/
structure Counters where
  wins : Int
  losses : Int
  ties : Int
  deriving DecidableEq, Repr

/-- The body of the parsing loop: three independent tests on one line. -/
def countLine (c : Counters) (line : List Char) : Counters :=
  let c := if find line "Win".data ≠ none then { c with wins := c.wins + 1 } else c
  let c := if find line "Loss".data ≠ none then { c with losses := c.losses + 1 } else c
  let c := if find line "Tie".data ≠ none then { c with ties := c.ties + 1 } else c
  c

/-- Source: `while (std::getline(resultsFile, line)) { ... }`. -/
def countLoop (c : Counters) (stream : List Char) : Counters :=
  match h : getline stream with
  | none => c
  | some (line, rest) => countLoop (countLine c line) rest
termination_by stream.length
decreasing_by
  cases stream with
  | nil => simp [getline] at h
  | cons c cs =>
    simp only [getline, Option.some.injEq, Prod.mk.injEq] at h
    rw [← h.2]
    have hle := (List.dropWhile_sublist (fun x => decide (x ≠ '\n')) (l := c :: cs)).length_le
    simp only [List.length_tail, List.length_cons] at *
    omega

/-- The loop `for (int i = 0; i < genome.size(); ++i)` of `evaluateFitness`: `none` when it
leaves the function through `return -1.0f` at an empty gene, otherwise the warrior text. -/
def appendGenes (warriorCode : String) : List String → Option String
  | [] => some warriorCode
  | gene :: rest =>
    if gene = "" then none
    else appendGenes (warriorCode ++ gene ++ "\n") rest

/-- What the environment does during one call of `evaluateFitness`: whether `warrior.red`
opens for writing, the value `system(...)` returns, and the contents of `results.txt`
(`none` when it cannot be opened for reading). -/
structure Env where
  warriorOpens : Bool
  systemRet : Int
  results : Option String

/-- Source: `float evaluateFitness(GAGenome& g)`, the returned value. The genome is the list
of its genes. `logWarrior` and the console output do not contribute to the returned value
and are left out. -/
def evaluateFitness (genome : List String) (env : Env) : ℚ :=
  let warriorCode := ";redcode\n" ++ ";name EvaluatedWarrior\n" ++ ";author GA\n"
  match appendGenes warriorCode genome with
  | none => -1
  | some _warrior =>
    if env.warriorOpens then
      if env.systemRet ≠ 0 then -1
      else
        match env.results with
        | none => -1
        | some text =>
          let c := countLoop ⟨0, 0, 0⟩ text.data
          F32.add (F32.ofInt (c.wins - c.losses)) (F32.mul (1 / 2) (F32.ofInt c.ties))
    else -1

/-! ### Specification vocabulary -/

/-- The lines of a text file, in the order `std::getline` delivers them. -/
def readLines (stream : List Char) : List (List Char) :=
  match h : getline stream with
  | none => []
  | some (line, rest) => line :: readLines rest
termination_by stream.length
decreasing_by
  cases stream with
  | nil => simp [getline] at h
  | cons c cs =>
    simp only [getline, Option.some.injEq, Prod.mk.injEq] at h
    rw [← h.2]
    have hle := (List.dropWhile_sublist (fun x => decide (x ≠ '\n')) (l := c :: cs)).length_le
    simp only [List.length_tail, List.length_cons] at *
    omega

/-- The number of lines of `text` that contain `keyword` as a substring. -/
def linesContaining (keyword : String) (text : String) : Nat :=
  (readLines text.data).countP (fun line => decide (keyword.data <:+: line))

/-- An evaluation fails: some gene is the empty string, `warrior.red` cannot be opened for
writing, the simulator command returns a non-zero status, or `results.txt` cannot be opened
for reading. -/
def Fails (genome : List String) (env : Env) : Prop :=
  (∃ gene ∈ genome, gene = "") ∨ env.warriorOpens = false ∨ env.systemRet ≠ 0 ∨
    env.results = none

/-- An evaluation succeeds on the results text `text`: no failure branch is taken. -/
def Succeeds (genome : List String) (env : Env) (text : String) : Prop :=
  (∀ gene ∈ genome, gene ≠ "") ∧ env.warriorOpens = true ∧ env.systemRet = 0 ∧
    env.results = some text

instance (genome : List String) (env : Env) : Decidable (Fails genome env) := by
  unfold Fails
  infer_instance

instance (genome : List String) (env : Env) (text : String) :
    Decidable (Succeeds genome env text) := by
  unfold Succeeds
  infer_instance

/-- A results text of `n` lines, each of them `Win`. -/
def winLines (n : Nat) : String :=
  ⟨(List.replicate n "Win\n".data).flatten⟩

/-! ## Theorems on `GAListGenome.h` -/

/-- C1: after `destroy()`, `swap(i, j)`, `remove()`, `insert(list, where)` or
`insert(value, where)` the evaluated flag of the genome is false, for every list
implementation, every genome state (whatever its flag was) and every argument, whether
the list operation returns or throws. -/
theorem mutators_clear_evaluated {L T P ε S E U : Type} (base : GAList L T P ε)
    (g : GAListGenome L S E U) (i j : Nat) (t : L) (v : T) (wh : GAListBASE.Location) :
    (GAListGenome.destroy base g).2.genome._evaluated = false ∧
    (GAListGenome.swap base i j g).2.genome._evaluated = false ∧
    (GAListGenome.remove base g).2.genome._evaluated = false ∧
    (GAListGenome.insertList base t wh g).2.1.genome._evaluated = false ∧
    (GAListGenome.insertValue base v wh g).2.genome._evaluated = false :=
  ⟨rfl, rfl, rfl, rfl, rfl⟩

/-- C2: every structural mutator is a pure delegation. What it produces (the returned value
or the thrown failure) is what the `GAList<T>` operation produces on the genome's list with
the same arguments, the list is left in the state that operation leaves, and the score, the
evaluator reference and the user data of the genome are unchanged. -/
theorem mutators_delegate {L T P ε S E U : Type} (base : GAList L T P ε)
    (g : GAListGenome L S E U) (i j : Nat) (t : L) (v : T) (wh : GAListBASE.Location) :
    ((GAListGenome.destroy base g).1 = (base.destroy g.list).1 ∧
      (GAListGenome.destroy base g).2.list = (base.destroy g.list).2 ∧
      (GAListGenome.destroy base g).2.genome.otherFields = g.genome.otherFields) ∧
    ((GAListGenome.swap base i j g).1 = (base.swap i j g.list).1 ∧
      (GAListGenome.swap base i j g).2.list = (base.swap i j g.list).2 ∧
      (GAListGenome.swap base i j g).2.genome.otherFields = g.genome.otherFields) ∧
    ((GAListGenome.remove base g).1 = (base.remove g.list).1 ∧
      (GAListGenome.remove base g).2.list = (base.remove g.list).2 ∧
      (GAListGenome.remove base g).2.genome.otherFields = g.genome.otherFields) ∧
    ((GAListGenome.insertList base t wh g).1 = (base.insertList t wh g.list).1 ∧
      (GAListGenome.insertList base t wh g).2.1.list = (base.insertList t wh g.list).2.1 ∧
      (GAListGenome.insertList base t wh g).2.2 = (base.insertList t wh g.list).2.2 ∧
      (GAListGenome.insertList base t wh g).2.1.genome.otherFields = g.genome.otherFields) ∧
    ((GAListGenome.insertValue base v wh g).1 = (base.insertValue v wh g.list).1 ∧
      (GAListGenome.insertValue base v wh g).2.list = (base.insertValue v wh g.list).2 ∧
      (GAListGenome.insertValue base v wh g).2.genome.otherFields = g.genome.otherFields) :=
  ⟨⟨rfl, rfl, rfl⟩, ⟨rfl, rfl, rfl⟩, ⟨rfl, rfl, rfl⟩, ⟨rfl, rfl, rfl, rfl⟩, ⟨rfl, rfl, rfl⟩⟩

/-! ## Theorems on `src/main.cpp` -/

theorem empty_append_string (s : String) : "" ++ s = s := by
  apply String.ext
  simp

/-- Every vector access of `generateRandomInstruction` is in range: the call returns. -/
theorem generateRandomInstruction_returns (r : Rand) :
    ∃ instruction r1, generateRandomInstruction r = some (instruction, r1) := by
  have e19 : OPCODES.length = 19 := rfl
  have e7 : MODIFIERS.length = 7 := rfl
  have e8 : ADDRESSING_MODES.length = 8 := rfl
  have h19 : ∀ d : Nat, d % 19 < OPCODES.length := fun d => Nat.mod_lt _ (by decide)
  have h7 : ∀ d : Nat, d % 7 < MODIFIERS.length := fun d => Nat.mod_lt _ (by decide)
  have h8 : ∀ d : Nat, d % 8 < ADDRESSING_MODES.length := fun d => Nat.mod_lt _ (by decide)
  simp only [generateRandomInstruction, rand, e19, e7, e8, Nat.add_assoc]
  by_cases hodd : r.draws (r.pos + 1) % 2 = 1
  · simp [hodd, List.getElem?_eq_getElem, h19, h7, h8]
  · have heven : r.draws (r.pos + 1) % 2 = 0 := by omega
    simp [heven, List.getElem?_eq_getElem, h19, h8]

/-- The loop of `generateRandomWarrior` runs to its end for every number of iterations. -/
theorem warriorLoop_returns (n : Nat) :
    ∀ (warrior : String) (r : Rand), ∃ text r1, warriorLoop n warrior r = some (text, r1) := by
  induction n with
  | zero => intro warrior r; exact ⟨warrior, r, rfl⟩
  | succ n ih =>
    intro warrior r
    obtain ⟨instruction, r1, h⟩ := generateRandomInstruction_returns r
    obtain ⟨text, r2, h2⟩ := ih (warrior ++ instruction ++ "\n") r1
    exact ⟨text, r2, by simp [warriorLoop, h, h2]⟩

/-- C4: `generateRandomWarrior(length)` throws `std::invalid_argument` if and only if
`length <= 0`; for `length <= 0` the generator is left as it was (no draw is consumed); for
every `length > 0` the call returns a text. -/
theorem generateRandomWarrior_fails_iff (length : Int) (r : Rand) :
    ((∃ what, (generateRandomWarrior length r).1 = .error (.invalid_argument what)) ↔
      length ≤ 0) ∧
    (length ≤ 0 → (generateRandomWarrior length r).2 = r) ∧
    (0 < length → ∃ text, (generateRandomWarrior length r).1 = .ok text) := by
  by_cases hlen : length ≤ 0
  · refine ⟨⟨fun _ => hlen, fun _ => ⟨"Warrior length must be greater than 0.", ?_⟩⟩,
      fun _ => ?_, fun hpos => absurd hpos (by omega)⟩
    · simp [generateRandomWarrior, hlen]
    · simp [generateRandomWarrior, hlen]
  · obtain ⟨text, r1, h⟩ := warriorLoop_returns length.toNat
      ";redcode\n;name RandomWarrior\n;author GA\n" r
    have hok : (generateRandomWarrior length r).1 = .ok text := by
      simp [generateRandomWarrior, hlen, h]
    refine ⟨⟨fun ⟨what, hw⟩ => ?_, fun h0 => absurd h0 hlen⟩, fun h0 => absurd h0 hlen,
      fun _ => ⟨text, hok⟩⟩
    rw [hok] at hw
    cases hw

/-- C7: for every stream of non-negative draws, `generateRandomInstruction` stays inside
`OPCODES` (19 entries), `MODIFIERS` (7) and `ADDRESSING_MODES` (8), and its result is an
opcode, followed by a modifier exactly when the second draw is odd (and by nothing
otherwise), a space, an addressing mode, the decimal of operand A, a comma and a space, an
addressing mode and the decimal of operand B, both operands below `CORESIZE = 8000`. -/
theorem generateRandomInstruction_shape (r : Rand) :
    OPCODES.length = 19 ∧ MODIFIERS.length = 7 ∧ ADDRESSING_MODES.length = 8 ∧
    CORESIZE = 8000 ∧
    ∃ opcode ∈ OPCODES, ∃ modifier : String, ∃ modeA ∈ ADDRESSING_MODES,
      ∃ operandA < CORESIZE, ∃ modeB ∈ ADDRESSING_MODES, ∃ operandB < CORESIZE,
      ∃ r1 : Rand,
        generateRandomInstruction r =
          some (opcode ++ modifier ++ " " ++ modeA ++ toString operandA ++ ", " ++ modeB ++
            toString operandB, r1) ∧
        (modifier ∈ MODIFIERS ↔ r.draws (r.pos + 1) % 2 = 1) ∧
        (modifier = "" ↔ r.draws (r.pos + 1) % 2 = 0) := by
  refine ⟨rfl, rfl, rfl, rfl, ?_⟩
  have h19 : r.draws r.pos % 19 < OPCODES.length := Nat.mod_lt _ (by decide)
  by_cases hodd : r.draws (r.pos + 1) % 2 = 1
  · have h7 : r.draws (r.pos + 2) % 7 < MODIFIERS.length := Nat.mod_lt _ (by decide)
    have hA : r.draws (r.pos + 5) % 8 < ADDRESSING_MODES.length := Nat.mod_lt _ (by decide)
    have hB : r.draws (r.pos + 6) % 8 < ADDRESSING_MODES.length := Nat.mod_lt _ (by decide)
    refine ⟨OPCODES[r.draws r.pos % 19], List.getElem_mem _,
      MODIFIERS[r.draws (r.pos + 2) % 7],
      ADDRESSING_MODES[r.draws (r.pos + 5) % 8], List.getElem_mem _,
      r.draws (r.pos + 3) % CORESIZE, Nat.mod_lt _ (by decide),
      ADDRESSING_MODES[r.draws (r.pos + 6) % 8], List.getElem_mem _,
      r.draws (r.pos + 4) % CORESIZE, Nat.mod_lt _ (by decide),
      ⟨r.draws, r.pos + 7⟩, ?_, ?_, ?_⟩
    · have e19 : OPCODES.length = 19 := rfl
      have e7 : MODIFIERS.length = 7 := rfl
      have e8 : ADDRESSING_MODES.length = 8 := rfl
      simp only [generateRandomInstruction, rand, e19, e7, e8, Nat.add_assoc]
      simp [hodd, List.getElem?_eq_getElem, h19, h7, hA, hB, empty_append_string]
    · simp [hodd, List.getElem_mem]
    · have hne : ∀ m ∈ MODIFIERS, m ≠ "" := by decide
      have := hne _ (List.getElem_mem h7)
      simp [hodd, this]
  · have heven : r.draws (r.pos + 1) % 2 = 0 := by omega
    have hA : r.draws (r.pos + 4) % 8 < ADDRESSING_MODES.length := Nat.mod_lt _ (by decide)
    have hB : r.draws (r.pos + 5) % 8 < ADDRESSING_MODES.length := Nat.mod_lt _ (by decide)
    refine ⟨OPCODES[r.draws r.pos % 19], List.getElem_mem _, "",
      ADDRESSING_MODES[r.draws (r.pos + 4) % 8], List.getElem_mem _,
      r.draws (r.pos + 2) % CORESIZE, Nat.mod_lt _ (by decide),
      ADDRESSING_MODES[r.draws (r.pos + 5) % 8], List.getElem_mem _,
      r.draws (r.pos + 3) % CORESIZE, Nat.mod_lt _ (by decide),
      ⟨r.draws, r.pos + 6⟩, ?_, ?_, ?_⟩
    · have e19 : OPCODES.length = 19 := rfl
      have e8 : ADDRESSING_MODES.length = 8 := rfl
      simp only [generateRandomInstruction, rand, e19, e8, Nat.add_assoc]
      simp [heven, List.getElem?_eq_getElem, h19, hA, hB, empty_append_string]
    · have hne : "" ∉ MODIFIERS := by decide
      simp [heven, hne]
    · simp [heven]

/-- The instruction built from the draws 20, 3, 9, 8001, 7999, 14, 15: opcode 20 % 19 = 1,
odd coin, modifier 9 % 7 = 2, operands 8001 % 8000 = 1 and 7999, modes 14 % 8 = 6 (opening
brace) and 15 % 8 = 7 (closing brace); seven draws are consumed. -/
theorem generateRandomInstruction_sample_odd :
    (generateRandomInstruction ⟨fun n => [20, 3, 9, 8001, 7999, 14, 15].getD n 0, 0⟩).map
        (fun x => (x.1, x.2.pos)) =
      some ("MOV.AB \x7b1, \x7d7999", 7) := by
  decide

/-- The instruction built from the draws 20, 2, 9, 8001, 7999, 14: even coin, no modifier,
operands 9 and 8001 % 8000 = 1, modes 7999 % 8 = 7 and 14 % 8 = 6; six draws are consumed. -/
theorem generateRandomInstruction_sample_even :
    (generateRandomInstruction ⟨fun n => [20, 2, 9, 8001, 7999, 14].getD n 0, 0⟩).map
        (fun x => (x.1, x.2.pos)) =
      some ("MOV \x7d9, \x7b1", 6) := by
  decide

/-! ### The failure branches of `evaluateFitness` -/

theorem appendGenes_eq_none_iff (genome : List String) :
    ∀ warriorCode : String, appendGenes warriorCode genome = none ↔ ∃ gene ∈ genome, gene = "" := by
  induction genome with
  | nil => intro w; simp [appendGenes]
  | cons g rest ih =>
    intro w
    by_cases hg : g = ""
    · simp [appendGenes, hg]
    · have hg2 : ¬ "" = g := fun e => hg e.symm
      simp [appendGenes, hg, hg2, ih]

theorem evaluateFitness_of_fails (genome : List String) (env : Env) (h : Fails genome env) :
    evaluateFitness genome env = -1 := by
  simp only [evaluateFitness]
  cases happ : appendGenes (";redcode\n" ++ ";name EvaluatedWarrior\n" ++ ";author GA\n") genome with
  | none => rfl
  | some warrior =>
    have hgenes : ¬ ∃ gene ∈ genome, gene = "" := by
      rw [← appendGenes_eq_none_iff genome, happ]
      simp
    rcases h with h | h | h | h
    · exact absurd h hgenes
    · simp [h]
    · simp [h]
    · simp [h]

/-! ### The parsing loop -/

theorem find_go_ne_none_iff (needle : List Char) (rest : List Char) :
    ∀ pos : Nat, find.go needle rest pos ≠ none ↔ needle <:+: rest := by
  induction rest with
  | nil =>
    intro pos
    unfold find.go
    by_cases hp : needle.isPrefixOf [] = true
    · have : needle = [] := by simpa using hp
      simp [this]
    · have : needle ≠ [] := by simpa using hp
      simp [this]
  | cons c cs ih =>
    intro pos
    unfold find.go
    by_cases hp : needle.isPrefixOf (c :: cs) = true
    · have hpre : needle <+: c :: cs := by simpa using hp
      simp [hp, List.infix_cons_iff, hpre]
    · have hpre : ¬ needle <+: c :: cs := by simpa using hp
      simp [hp, List.infix_cons_iff, hpre, ih]

theorem find_ne_none_iff (line needle : List Char) :
    find line needle ≠ none ↔ needle <:+: line :=
  find_go_ne_none_iff needle line 0

theorem countLine_eq (c : Counters) (line : List Char) :
    countLine c line =
      ⟨c.wins + (if "Win".data <:+: line then 1 else 0),
       c.losses + (if "Loss".data <:+: line then 1 else 0),
       c.ties + (if "Tie".data <:+: line then 1 else 0)⟩ := by
  simp only [countLine, find_ne_none_iff]
  by_cases hw : "Win".data <:+: line <;> by_cases hl : "Loss".data <:+: line <;>
    by_cases ht : "Tie".data <:+: line <;> simp [hw, hl, ht]

theorem countLoop_of_none (c : Counters) {stream : List Char} (h : getline stream = none) :
    countLoop c stream = c := by
  rw [countLoop]
  split
  · rfl
  · next line rest h2 => rw [h] at h2; cases h2

theorem countLoop_of_some (c : Counters) {stream line rest : List Char}
    (h : getline stream = some (line, rest)) :
    countLoop c stream = countLoop (countLine c line) rest := by
  rw [countLoop]
  split
  · next h2 => rw [h] at h2; cases h2
  · next line2 rest2 h2 => rw [h] at h2; cases h2; rfl

theorem readLines_of_none {stream : List Char} (h : getline stream = none) :
    readLines stream = [] := by
  rw [readLines]
  split
  · rfl
  · next line rest h2 => rw [h] at h2; cases h2

theorem readLines_of_some {stream line rest : List Char}
    (h : getline stream = some (line, rest)) :
    readLines stream = line :: readLines rest := by
  rw [readLines]
  split
  · next h2 => rw [h] at h2; cases h2
  · next line2 rest2 h2 => rw [h] at h2; cases h2; rfl

/-! ### `readLines` splits a text at its newlines -/

theorem readLines_nil : readLines [] = [] := readLines_of_none rfl

theorem getline_append_newline (line rest : List Char) (h : '\n' ∉ line) :
    getline (line ++ '\n' :: rest) = some (line, rest) := by
  have key : ∀ l : List Char, '\n' ∉ l →
      (l ++ '\n' :: rest).takeWhile (fun x => decide (x ≠ '\n')) = l ∧
      (l ++ '\n' :: rest).dropWhile (fun x => decide (x ≠ '\n')) = '\n' :: rest := by
    intro l
    induction l with
    | nil => intro _; simp
    | cons c cs ih =>
      intro hl
      have hc : c ≠ '\n' := fun e => hl (by simp [e])
      have hcs : '\n' ∉ cs := fun e => hl (by simp [e])
      obtain ⟨h1, h2⟩ := ih hcs
      simp only [List.cons_append, List.takeWhile_cons, List.dropWhile_cons, hc, ne_eq,
        not_false_eq_true, decide_True, ↓reduceIte, h1, h2, and_self]
  obtain ⟨h1, h2⟩ := key line h
  cases line with
  | nil => simp [getline]
  | cons c cs =>
    simp only [List.cons_append] at h1 h2
    simp only [List.cons_append, getline, h1, h2, List.tail_cons]

theorem getline_last (line : List Char) (h : '\n' ∉ line) (hne : line ≠ []) :
    getline line = some (line, []) := by
  have key : ∀ l : List Char, '\n' ∉ l →
      l.takeWhile (fun x => decide (x ≠ '\n')) = l ∧
      l.dropWhile (fun x => decide (x ≠ '\n')) = [] := by
    intro l
    induction l with
    | nil => intro _; simp
    | cons c cs ih =>
      intro hl
      have hc : c ≠ '\n' := fun e => hl (by simp [e])
      have hcs : '\n' ∉ cs := fun e => hl (by simp [e])
      obtain ⟨h1, h2⟩ := ih hcs
      simp only [List.takeWhile_cons, List.dropWhile_cons, hc, ne_eq,
        not_false_eq_true, decide_True, ↓reduceIte, h1, h2, and_self]
  obtain ⟨h1, h2⟩ := key line h
  cases line with
  | nil => exact absurd rfl hne
  | cons c cs =>
    simp only [getline, h1, h2, List.tail_nil]

theorem readLines_last (line : List Char) (h : '\n' ∉ line) (hne : line ≠ []) :
    readLines line = [line] := by
  rw [readLines_of_some (getline_last line h hne), readLines_nil]

theorem readLines_append_newline (line rest : List Char) (h : '\n' ∉ line) :
    readLines (line ++ '\n' :: rest) = line :: readLines rest :=
  readLines_of_some (getline_append_newline line rest h)

theorem countLoop_eq (c : Counters) (stream : List Char) :
    countLoop c stream =
      ⟨c.wins + (readLines stream).countP (fun line => decide ("Win".data <:+: line)),
       c.losses + (readLines stream).countP (fun line => decide ("Loss".data <:+: line)),
       c.ties + (readLines stream).countP (fun line => decide ("Tie".data <:+: line))⟩ := by
  induction c, stream using countLoop.induct with
  | case1 c stream h =>
    rw [countLoop_of_none c h, readLines_of_none h]
    simp
  | case2 c stream line rest h ih =>
    rw [countLoop_of_some c h, readLines_of_some h, ih, countLine_eq]
    simp only [List.countP_cons, Counters.mk.injEq]
    refine ⟨?_, ?_, ?_⟩
    · by_cases hw : "Win".data <:+: line
      · simp [hw]; ring
      · simp [hw]
    · by_cases hw : "Loss".data <:+: line
      · simp [hw]; ring
      · simp [hw]
    · by_cases hw : "Tie".data <:+: line
      · simp [hw]; ring
      · simp [hw]

/-! ### binary32 rounding -/

theorem roundHalfEven_intCast (n : ℤ) : roundHalfEven (n : ℚ) = n := by
  simp [roundHalfEven]

/-- A rational `m * 2 ^ k` whose exponent `k` is not below that of the spacing around it is a
binary32 number: rounding leaves it as it is. -/
theorem roundF32_of_dyadic (q : ℚ) (m k : ℤ) (hq : q = m * (2 : ℚ) ^ k)
    (hk : max (binade q) (-126) - 23 ≤ k) : roundF32 q = q := by
  unfold roundF32 ulp
  generalize max (binade q) (-126) - 23 = u at hk
  have h2 : (2 : ℚ) ≠ 0 := by norm_num
  obtain ⟨j, hj⟩ : ∃ j : ℕ, k = u + j := ⟨(k - u).toNat, by omega⟩
  have hdiv : q / (2 : ℚ) ^ u = ((m * 2 ^ j : ℤ) : ℚ) := by
    rw [hq, hj, zpow_add₀ h2, zpow_natCast]
    field_simp
    ring
  rw [hdiv, roundHalfEven_intCast, hq, hj, zpow_add₀ h2, zpow_natCast]
  push_cast
  ring

theorem binade_lt_of_abs_lt (q : ℚ) (x : ℤ) (hx : 0 < x) (h : |q| < (2 : ℚ) ^ x) :
    binade q < x := by
  unfold binade
  by_cases h0 : q = 0
  · subst h0
    simpa [Int.log_zero_right] using hx
  · have hpos : 0 < |q| := abs_pos.mpr h0
    exact (Int.lt_zpow_iff_log_lt (b := 2) (by norm_num) hpos (x := x)).mp (by exact_mod_cast h)

/-- Integers and half-integers below `2 ^ 23` in magnitude are binary32 numbers. -/
theorem roundF32_half (n : ℤ) (h : |n| < 2 ^ 24) : roundF32 ((n : ℚ) / 2) = (n : ℚ) / 2 := by
  apply roundF32_of_dyadic _ n (-1)
  · rw [zpow_neg, zpow_one]; ring
  · have habs : |(n : ℚ) / 2| < (2 : ℚ) ^ (23 : ℤ) := by
      rw [abs_div, abs_of_pos (by norm_num : (0 : ℚ) < 2), div_lt_iff₀ (by norm_num)]
      have : ((|n| : ℤ) : ℚ) < 2 ^ 24 := by exact_mod_cast h
      rw [Int.cast_abs] at this
      calc |(n : ℚ)| < 2 ^ 24 := this
        _ = (2 : ℚ) ^ (23 : ℤ) * 2 := by norm_num
    have := binade_lt_of_abs_lt _ 23 (by norm_num) habs
    omega

/-! ### The value of a successful evaluation -/

/-- A successful evaluation returns the `float` expression `wins - losses + 0.5f * ties` over
the three line counts, every conversion and operation of it rounded to binary32. -/
theorem evaluateFitness_of_succeeds (genome : List String) (env : Env) (text : String)
    (h : Succeeds genome env text) :
    evaluateFitness genome env =
      F32.add (F32.ofInt ((linesContaining "Win" text : ℤ) - linesContaining "Loss" text))
        (F32.mul (1 / 2) (F32.ofInt (linesContaining "Tie" text))) := by
  obtain ⟨hgenes, hopen, hret, hres⟩ := h
  simp only [evaluateFitness]
  cases happ : appendGenes (";redcode\n" ++ ";name EvaluatedWarrior\n" ++ ";author GA\n") genome with
  | none =>
    obtain ⟨gene, hmem, hempty⟩ := (appendGenes_eq_none_iff genome _).mp happ
    exact absurd hempty (hgenes gene hmem)
  | some warrior =>
    simp [hopen, hret, hres, countLoop_eq, linesContaining]

theorem evaluateFitness_exact_of_le (genome : List String) (env : Env) (text : String)
    (h : Succeeds genome env text)
    (hW : linesContaining "Win" text ≤ 2 ^ 22) (hL : linesContaining "Loss" text ≤ 2 ^ 22)
    (hT : linesContaining "Tie" text ≤ 2 ^ 22) :
    evaluateFitness genome env =
      (linesContaining "Win" text : ℚ) - linesContaining "Loss" text +
        (linesContaining "Tie" text : ℚ) / 2 := by
  rw [evaluateFitness_of_succeeds genome env text h]
  generalize linesContaining "Win" text = W at *
  generalize linesContaining "Loss" text = L at *
  generalize linesContaining "Tie" text = T at *
  unfold F32.add F32.mul F32.ofInt
  have e1 : (((W : ℤ) - (L : ℤ) : ℤ) : ℚ) = ((2 * ((W : ℤ) - L) : ℤ) : ℚ) / 2 := by
    push_cast; ring
  have e2 : (((T : ℤ)) : ℚ) = ((2 * (T : ℤ) : ℤ) : ℚ) / 2 := by
    push_cast; ring
  have r1 : roundF32 (((W : ℤ) - (L : ℤ) : ℤ) : ℚ) = (W : ℚ) - L := by
    rw [e1, roundF32_half _ (by rw [abs_lt]; constructor <;> omega)]
    push_cast; ring
  have r2 : roundF32 (((T : ℤ)) : ℚ) = (T : ℚ) := by
    rw [e2, roundF32_half _ (by rw [abs_lt]; constructor <;> omega)]
    push_cast; ring
  have r3 : roundF32 (1 / 2 * (T : ℚ)) = (T : ℚ) / 2 := by
    have : (1 / 2 * (T : ℚ)) = (((T : ℤ)) : ℚ) / 2 := by push_cast; ring
    rw [this, roundF32_half _ (by rw [abs_lt]; constructor <;> omega)]
    push_cast; ring
  rw [r1, r2, r3]
  have : (W : ℚ) - L + (T : ℚ) / 2 = ((2 * ((W : ℤ) - L) + T : ℤ) : ℚ) / 2 := by
    push_cast; ring
  rw [this, roundF32_half _ (by rw [abs_lt]; constructor <;> omega)]

/-! ### A results text with more lines than binary32 has integers in a row -/

theorem readLines_winLines (n : Nat) :
    readLines (winLines n).data = List.replicate n "Win".data := by
  induction n with
  | zero => simp [winLines, readLines_of_none, getline]
  | succ n ih =>
    have hget : getline (winLines (n + 1)).data = some ("Win".data, (winLines n).data) := by
      simp [winLines, List.replicate_succ, getline]
    rw [readLines_of_some hget, ih, List.replicate_succ]

theorem linesContaining_winLines (n : Nat) :
    linesContaining "Win" (winLines n) = n ∧ linesContaining "Loss" (winLines n) = 0 ∧
      linesContaining "Tie" (winLines n) = 0 := by
  simp only [linesContaining, readLines_winLines, List.countP_replicate]
  refine ⟨?_, ?_, ?_⟩
  · simp
  · have : ¬ "Loss".data <:+: "Win".data := by decide
    simp [this]
  · have : ¬ "Tie".data <:+: "Win".data := by decide
    simp [this]

theorem roundF32_zero : roundF32 0 = 0 := by
  have := roundF32_half 0 (by norm_num)
  simpa using this

theorem binade_eq (q : ℚ) (e : ℤ) (hq : 0 < q) (h1 : (2 : ℚ) ^ e ≤ q)
    (h2 : q < (2 : ℚ) ^ (e + 1)) : binade q = e := by
  unfold binade
  rw [abs_of_pos hq]
  have hle : e ≤ Int.log 2 q :=
    (Int.zpow_le_iff_le_log (b := 2) (by norm_num) hq).mp (by exact_mod_cast h1)
  have hlt : Int.log 2 q < e + 1 :=
    (Int.lt_zpow_iff_log_lt (b := 2) (by norm_num) hq).mp (by exact_mod_cast h2)
  omega

theorem roundF32_two_pow_24 : roundF32 16777216 = 16777216 := by
  have hb : binade 16777216 = 24 := binade_eq _ 24 (by norm_num) (by norm_num) (by norm_num)
  apply roundF32_of_dyadic _ 8388608 1
  · norm_num
  · rw [hb]; decide

/-- The integer `2 ^ 24 + 1` lies halfway between the binary32 numbers `2 ^ 24` and
`2 ^ 24 + 2`; the tie goes to the even significand, `2 ^ 24`. -/
theorem roundF32_two_pow_24_add_one : roundF32 16777217 = 16777216 := by
  have hb : binade 16777217 = 24 := binade_eq _ 24 (by norm_num) (by norm_num) (by norm_num)
  have hu : ulp 16777217 = 2 := by
    unfold ulp
    rw [hb]
    norm_num
  have hfloor : ⌊(16777217 : ℚ) / 2⌋ = 8388608 := by
    rw [Int.floor_eq_iff]
    norm_num
  unfold roundF32 roundHalfEven
  rw [hu, hfloor]
  norm_num

/-! ### The claims on `evaluateFitness` -/

/-- C5: whenever `evaluateFitness` fails (some gene is the empty string, `warrior.red` cannot
be opened for writing, the simulator command returns a non-zero status, or `results.txt`
cannot be opened for reading) it returns `-1.0`, for every genome and every outcome of the
other steps of the environment. -/
theorem evaluateFitness_failure (genome : List String) (env : Env) (h : Fails genome env) :
    evaluateFitness genome env = -1 :=
  evaluateFitness_of_fails genome env h

/-- The four failure branches of C5 at concrete inputs: an empty second gene, `warrior.red`
not opening, the simulator returning status 256, `results.txt` not opening. -/
theorem evaluateFitness_failure_witness :
    evaluateFitness ["MOV 0, 1", ""] ⟨true, 0, some "Win\n"⟩ = -1 ∧
    evaluateFitness ["MOV 0, 1"] ⟨false, 0, some "Win\n"⟩ = -1 ∧
    evaluateFitness ["MOV 0, 1"] ⟨true, 256, some "Win\n"⟩ = -1 ∧
    evaluateFitness ["MOV 0, 1"] ⟨true, 0, none⟩ = -1 :=
  ⟨evaluateFitness_failure _ _ (Or.inl ⟨"", by simp, rfl⟩),
   evaluateFitness_failure _ _ (Or.inr (Or.inl rfl)),
   evaluateFitness_failure _ _ (Or.inr (Or.inr (Or.inl (by decide)))),
   evaluateFitness_failure _ _ (Or.inr (Or.inr (Or.inr rfl)))⟩

theorem linesContaining_loss :
    linesContaining "Win" "Loss\n" = 0 ∧ linesContaining "Loss" "Loss\n" = 1 ∧
      linesContaining "Tie" "Loss\n" = 0 := by
  have hlines : readLines "Loss\n".data = ["Loss".data] := by
    simp [readLines, getline]
  simp only [linesContaining, hlines]
  decide

/-- C3: the failure sentinel of `evaluateFitness` is also a valid fitness. On the results text
consisting of the one line `Loss` a successful evaluation exists, every successful
evaluation returns exactly `-1.0`, and `-1.0` is what every failing evaluation returns. -/
theorem evaluateFitness_sentinel_conflated :
    ∃ text : String,
      (∃ genome env, Succeeds genome env text) ∧
      (∀ genome env, Succeeds genome env text → evaluateFitness genome env = -1) ∧
      (∀ genome env, Fails genome env → evaluateFitness genome env = -1) := by
  refine ⟨"Loss\n", ⟨["MOV 0, 1"], ⟨true, 0, some "Loss\n"⟩, ?_⟩, ?_, evaluateFitness_of_fails⟩
  · simp [Succeeds]
  · intro genome env h
    obtain ⟨hW, hL, hT⟩ := linesContaining_loss
    rw [evaluateFitness_exact_of_le genome env _ h (by rw [hW]; norm_num) (by rw [hL]; norm_num)
      (by rw [hT]; norm_num), hW, hL, hT]
    norm_num

/-- C6 (amended): on every successful evaluation in which none of the three counts exceeds
`2 ^ 22 = 4194304`, `evaluateFitness` returns exactly `W - L + T / 2`, where `W`, `L` and `T`
are the numbers of lines of `results.txt` that contain `Win`, `Loss` and `Tie`; the three
counts are taken independently over the same lines, so a line with several keywords counts
once in each of them and a line with none counts in none. -/
theorem evaluateFitness_value (genome : List String) (env : Env) (text : String)
    (h : Succeeds genome env text)
    (hW : linesContaining "Win" text ≤ 2 ^ 22) (hL : linesContaining "Loss" text ≤ 2 ^ 22)
    (hT : linesContaining "Tie" text ≤ 2 ^ 22) :
    evaluateFitness genome env =
      (linesContaining "Win" text : ℚ) - linesContaining "Loss" text +
        (linesContaining "Tie" text : ℚ) / 2 :=
  evaluateFitness_exact_of_le genome env text h hW hL hT

theorem linesContaining_sample :
    linesContaining "Win" "Win\nWin Loss Tie\nTies\nnone\n\nWin" = 3 ∧
    linesContaining "Loss" "Win\nWin Loss Tie\nTies\nnone\n\nWin" = 1 ∧
    linesContaining "Tie" "Win\nWin Loss Tie\nTies\nnone\n\nWin" = 2 := by
  have hlines : readLines "Win\nWin Loss Tie\nTies\nnone\n\nWin".data =
      ["Win".data, "Win Loss Tie".data, "Ties".data, "none".data, [], "Win".data] := by
    simp [readLines, getline]
  simp only [linesContaining, hlines]
  decide

/-- C6 at a concrete input: six lines, one of which holds all three keywords, one none and one
is empty; three lines hold `Win`, one `Loss`, two `Tie`; the fitness is `3 - 1 + 2 / 2 = 3`. -/
theorem evaluateFitness_value_witness :
    Succeeds ["MOV 0, 1"] ⟨true, 0, some "Win\nWin Loss Tie\nTies\nnone\n\nWin"⟩
      "Win\nWin Loss Tie\nTies\nnone\n\nWin" ∧
    evaluateFitness ["MOV 0, 1"] ⟨true, 0, some "Win\nWin Loss Tie\nTies\nnone\n\nWin"⟩ = 3 := by
  have hs : Succeeds ["MOV 0, 1"] ⟨true, 0, some "Win\nWin Loss Tie\nTies\nnone\n\nWin"⟩
      "Win\nWin Loss Tie\nTies\nnone\n\nWin" := by
    decide
  obtain ⟨hW, hL, hT⟩ := linesContaining_sample
  refine ⟨hs, ?_⟩
  rw [evaluateFitness_value _ _ _ hs (by rw [hW]; norm_num) (by rw [hL]; norm_num)
    (by rw [hT]; norm_num), hW, hL, hT]
  norm_num

/-- C6 as stated fails: on a results text of `2 ^ 24 + 1 = 16777217` lines `Win` the
evaluation succeeds with `W = 16777217`, `L = 0`, `T = 0`, and the `float` returned is
`16777216`, not `W - L + T / 2 = 16777217`. -/
theorem evaluateFitness_not_exact :
    Succeeds ["MOV 0, 1"] ⟨true, 0, some (winLines 16777217)⟩ (winLines 16777217) ∧
    linesContaining "Win" (winLines 16777217) = 16777217 ∧
    linesContaining "Loss" (winLines 16777217) = 0 ∧
    linesContaining "Tie" (winLines 16777217) = 0 ∧
    evaluateFitness ["MOV 0, 1"] ⟨true, 0, some (winLines 16777217)⟩ = 16777216 ∧
    evaluateFitness ["MOV 0, 1"] ⟨true, 0, some (winLines 16777217)⟩ ≠
      (linesContaining "Win" (winLines 16777217) : ℚ) -
        linesContaining "Loss" (winLines 16777217) +
        (linesContaining "Tie" (winLines 16777217) : ℚ) / 2 := by
  have hs : Succeeds ["MOV 0, 1"] ⟨true, 0, some (winLines 16777217)⟩ (winLines 16777217) := by
    simp [Succeeds]
  obtain ⟨hW, hL, hT⟩ := linesContaining_winLines 16777217
  have hval : evaluateFitness ["MOV 0, 1"] ⟨true, 0, some (winLines 16777217)⟩ = 16777216 := by
    rw [evaluateFitness_of_succeeds _ _ _ hs, hW, hL, hT]
    simp only [F32.add, F32.mul, F32.ofInt]
    norm_num [roundF32_zero, roundF32_two_pow_24_add_one, roundF32_two_pow_24]
  refine ⟨hs, hW, hL, hT, hval, ?_⟩
  rw [hval, hW, hL, hT]
  norm_num

end CoreWars
